import Mathlib

/-
  Verification development for the Kyber / ML-KEM key-encapsulation core of
  the ReCryptor library (file kem/kyber/templates/pkg.templ.go).

  The template generates two variants of the package:
    - the standardized (FIPS 203 / ML-KEM) variant, selected by the NIST flag;
    - the pre-standard (round-3 submission) variant.
  We model the template once, parameterized by an explicit Variant value, and
  translate each generated function line by line.

  The underlying CPA-secure PKE (package cpapke) and the hash and XOF
  primitives (package sha3) are external collaborators of the KEM core: their
  code is not part of this repository snapshot, so they are modelled
  abstractly, from the specification, as bundled structures of operations
  together with the interface properties the specification ascribes to them.

  Byte buffers are modelled as lists of naturals; Go slicing buf[a:b]
  becomes (List.drop a) and (List.take n); the Go panic of a function that
  returns nothing becomes a dedicated result constructor; the entropy source
  (crypto/rand.Reader) becomes an explicit byte list threaded through the
  functions that read from it.
-/

namespace Kyber

/-- Byte strings are modelled as lists of naturals. -/
abbrev Bytes := List Nat

/-- The two variants generated from the template: the standardized FIPS 203
variant (template flag NIST set) and the pre-standard round-3 variant. -/
inductive Variant
  | nist
  | round3
deriving DecidableEq

/-- Error values of the kem package (package kem of the repository, declared
but not in this snapshot); each Go sentinel error becomes a constructor. -/
inductive KemError
  | ErrPrivKeySize
  | ErrPrivKey
  | ErrPubKeySize
  | ErrPubKey
  | ErrSeedSize
  | ErrCiphertextSize
  | ErrTypeMismatch
deriving DecidableEq

/-- Result of a Go function without an error return: either a normal result
or a runtime panic. -/
inductive PanicOr (α : Type)
  | ok (a : α)
  | panicked
deriving DecidableEq

/-- Modelled from the spec: the hash and XOF adapter (package sha3), an
external collaborator that is not under this repository snapshot.  The spec
describes a fixed-length hash with 256-bit and 512-bit output and an XOF
usable as a key-derivation function with arbitrary output length. -/
structure Hashes where
  hash256 : Bytes → Bytes
  hash512 : Bytes → Bytes
  shake256 : Bytes → Nat → Bytes
  h256_len : ∀ b, (hash256 b).length = 32
  h512_len : ∀ b, (hash512 b).length = 64
  shake_len : ∀ b n, (shake256 b n).length = n

/-- Modelled from the spec: the underlying CPA-PKE adapter (package cpapke),
an external collaborator that is not under this repository snapshot.  The
spec describes deterministic Encrypt(publicKey, message, coinSeed) and
Decrypt(privateKey, ciphertext), fixed-size pack/unpack of keys whose
pack-then-unpack round-trips, and a standardized-variant unpack that accepts
exactly the normalized (canonical) encodings.  The private-key Equal of the
adapter takes nilable pointers, modelled as Option arguments. -/
structure CPAPKE where
  Pub : Type
  Sec : Type
  keySeedSize : Nat
  publicKeySize : Nat
  privateKeySize : Nat
  ciphertextSize : Nat
  newKeyFromSeed : Bytes → Pub × Sec
  newKeyFromSeedMLKEM : Bytes → Pub × Sec
  packPub : Pub → Bytes
  unpackPub : Bytes → Pub
  unpackPubMLKEM : Bytes → Except KemError Pub
  packSec : Sec → Bytes
  unpackSec : Bytes → Sec
  encrypt : Pub → Bytes → Bytes → Bytes
  decrypt : Sec → Bytes → Bytes
  eqSec : Option Sec → Option Sec → Bool
  packPub_len : ∀ p, (packPub p).length = publicKeySize
  packSec_len : ∀ s, (packSec s).length = privateKeySize
  encrypt_len : ∀ p m r, m.length = 32 → (encrypt p m r).length = ciphertextSize
  unpackPub_packPub : ∀ p, unpackPub (packPub p) = p
  unpackSec_packSec : ∀ s, unpackSec (packSec s) = s
  unpackPubMLKEM_packPub : ∀ p, unpackPubMLKEM (packPub p) = Except.ok p
  mlkem_canon : ∀ b p, unpackPubMLKEM b = Except.ok p → packPub p = b
  eqSec_refl : ∀ s, eqSec (some s) (some s) = true

/-- Size of seed for NewKeyFromSeed (constant KeySeedSize of the template). -/
def KeySeedSize (P : CPAPKE) : Nat := P.keySeedSize + 32

/-- Size of seed for EncapsulateTo. -/
def EncapsulationSeedSize : Nat := 32

/-- Size of the established shared key. -/
def SharedKeySize : Nat := 32

/-- Size of the encapsulated shared key. -/
def CiphertextSize (P : CPAPKE) : Nat := P.ciphertextSize

/-- Size of a packed public key. -/
def PublicKeySize (P : CPAPKE) : Nat := P.publicKeySize

/-- Size of a packed private key. -/
def PrivateKeySize (P : CPAPKE) : Nat := P.privateKeySize + P.publicKeySize + 64

/-- Type of a KEM public key: pointer to the cpapke public key (nilable,
hence Option) and the cached 32-byte hash hpk of its packed encoding. -/
structure PublicKey (P : CPAPKE) where
  pk : Option P.Pub
  hpk : Bytes

/-- Type of a KEM private key: pointers to the cpapke private and public
keys (nilable, hence Option), the cached hpk, and the rejection secret z. -/
structure PrivateKey (P : CPAPKE) where
  sk : Option P.Sec
  pk : Option P.Pub
  hpk : Bytes
  z : Bytes

/-- Model of subtle.ConstantTimeCompare: 1 when the two byte strings have
equal lengths and contents, 0 otherwise (list equality captures both). -/
def constantTimeCompare (x y : Bytes) : Nat := if x = y then 1 else 0

/-- Model of subtle.ConstantTimeCopy over equal-length buffers: the
destination contents become the source contents when v is 1 and are kept
when v is 0. -/
def constantTimeCopy (v : Nat) (dst src : Bytes) : Bytes :=
  if v = 1 then src else dst

/-- NewKeyFromSeed derives a public/private keypair deterministically from
the given seed; panics if the seed is not of length KeySeedSize.  The NIST
variant calls the MLKEM generator of the cpapke adapter, the round-3 variant
the plain one; z is the 32-byte seed suffix and hpk the 256-bit hash of the
packed cpapke public key, stored in both keys. -/
def NewKeyFromSeed (v : Variant) (P : CPAPKE) (H : Hashes) (seed : Bytes) :
    PanicOr (PublicKey P × PrivateKey P) :=
  if seed.length ≠ KeySeedSize P then .panicked
  else
    let pair :=
      match v with
      | .nist => P.newKeyFromSeedMLKEM (seed.take P.keySeedSize)
      | .round3 => P.newKeyFromSeed (seed.take P.keySeedSize)
    let z := (seed.drop P.keySeedSize).take 32
    let hpk := H.hash256 (P.packPub pair.1)
    .ok (⟨some pair.1, hpk⟩, ⟨some pair.2, some pair.1, hpk, z⟩)

/-- Result of GenerateKeyPair: a key pair, a returned error value, or a
propagated panic. -/
inductive GenOut (P : CPAPKE)
  | ok (pk : PublicKey P) (sk : PrivateKey P)
  | err
  | panicked

/-- Model of io.ReadFull against a byte-list entropy source: returns the
first n bytes when the source holds at least n, and fails otherwise. -/
def readFull (r : Bytes) (n : Nat) : Option Bytes :=
  if n ≤ r.length then some (r.take n) else none

/-- GenerateKeyPair generates keys using entropy from rand; when rand is nil
the default source (crypto/rand.Reader, modelled by defaultRand) is used.  A
read failure is returned to the caller as an error value. -/
def GenerateKeyPair (v : Variant) (P : CPAPKE) (H : Hashes)
    (rand : Option Bytes) (defaultRand : Bytes) : GenOut P :=
  let r := rand.getD defaultRand
  match readFull r (KeySeedSize P) with
  | none => .err
  | some seed =>
    match NewKeyFromSeed v P H seed with
    | .ok (pk, sk) => .ok pk sk
    | .panicked => .panicked

/-- Core of EncapsulateTo once the 32-byte seed is resolved: message m is
the seed itself (NIST) or its 256-bit hash (round 3); (K1, r) is the 512-bit
hash of m followed by hpk; the ciphertext is the deterministic cpapke
encryption of m under coins r; the shared key is K1 (NIST) or the XOF of K1
followed by the 256-bit hash of the ciphertext (round 3). -/
def encapsulate (v : Variant) (P : CPAPKE) (H : Hashes) (p : P.Pub)
    (hpk seed : Bytes) : Bytes × Bytes :=
  let m : Bytes :=
    match v with
    | .nist => seed
    | .round3 => H.hash256 seed
  let kr := H.hash512 (m ++ hpk)
  let ct := P.encrypt p m (kr.drop 32)
  match v with
  | .nist => (ct, kr.take SharedKeySize)
  | .round3 => (ct, H.shake256 (kr.take 32 ++ H.hash256 ct) SharedKeySize)

/-- Result of EncapsulateTo: the written ciphertext and shared-key buffers,
or a panic. -/
inductive EncOut
  | ok (ct ss : Bytes)
  | panicked
deriving DecidableEq

/-- Body of EncapsulateTo after seed resolution: the ct and ss length checks
followed by the cryptographic core (a nil receiver public key would panic at
the dereference). -/
def encapsulateChecked (v : Variant) (P : CPAPKE) (H : Hashes)
    (pk : PublicKey P) (ct ss s ent : Bytes) : EncOut × Bytes :=
  if ct.length ≠ CiphertextSize P then (.panicked, ent)
  else if ss.length ≠ SharedKeySize then (.panicked, ent)
  else
    match pk.pk with
    | none => (.panicked, ent)
    | some p =>
      let r := encapsulate v P H p pk.hpk s
      (.ok r.1 r.2, ent)

/-- EncapsulateTo writes a shared key and ciphertext derived from the seed;
panics when ss, ct or seed have wrong lengths.  A nil seed draws 32 fresh
bytes from the entropy source before the other checks run, and panics if
the source fails; the function returns the outcome together with the
remaining entropy of the source. -/
def EncapsulateTo (v : Variant) (P : CPAPKE) (H : Hashes) (pk : PublicKey P)
    (ct ss : Bytes) (seed : Option Bytes) (entropy : Bytes) :
    EncOut × Bytes :=
  match seed with
  | none =>
    if EncapsulationSeedSize ≤ entropy.length then
      encapsulateChecked v P H pk ct ss
        (entropy.take EncapsulationSeedSize)
        (entropy.drop EncapsulationSeedSize)
    else (.panicked, entropy)
  | some s =>
    if s.length ≠ EncapsulationSeedSize then (.panicked, entropy)
    else encapsulateChecked v P H pk ct ss s entropy

/-- Core of DecapsulateTo: decrypt to m2, re-derive (K2, r2) as the 512-bit
hash of m2 followed by hpk, re-encrypt to ct2, then select between the
accept and reject values with a constant-time copy driven by the
constant-time comparison of ct with ct2.  The NIST variant precomputes the
rejection value as the XOF of z followed by ct and overwrites it with the
first 32 bytes of (K2, r2) exactly when the comparison succeeds; the
round-3 variant overwrites the second half of (K2, r2) with the 256-bit
hash of ct, conditionally replaces the first half by z when the comparison
fails, and derives the shared key as the XOF of the resulting 64 bytes. -/
def decapsulate (v : Variant) (P : CPAPKE) (H : Hashes) (psk : P.Sec)
    (p : P.Pub) (hpk z ct : Bytes) : Bytes :=
  let m2 := P.decrypt psk ct
  let kr2 := H.hash512 (m2 ++ hpk)
  let ct2 := P.encrypt p m2 (kr2.drop 32)
  match v with
  | .nist =>
    let ss2 := H.shake256 (z ++ ct) SharedKeySize
    constantTimeCopy (constantTimeCompare ct ct2) ss2 (kr2.take SharedKeySize)
  | .round3 =>
    let kr2b := kr2.take 32 ++ H.hash256 ct
    let first := constantTimeCopy (1 - constantTimeCompare ct ct2)
      (kr2b.take 32) z
    H.shake256 (first ++ kr2b.drop 32) SharedKeySize

/-- DecapsulateTo computes the shared key encapsulated in ct for the private
key and writes it to ss; panics when ct or ss have wrong lengths (a nil
private-key field would panic at the dereference). -/
def DecapsulateTo (v : Variant) (P : CPAPKE) (H : Hashes)
    (sk : PrivateKey P) (ss ct : Bytes) : PanicOr Bytes :=
  if ct.length ≠ CiphertextSize P then .panicked
  else if ss.length ≠ SharedKeySize then .panicked
  else
    match sk.sk, sk.pk with
    | some psk, some p => .ok (decapsulate v P H psk p sk.hpk sk.z ct)
    | _, _ => .panicked

/-- PrivateKey.Pack writes the packed cpapke private key, the packed cpapke
public key, hpk and z, in that order; panics when buf has the wrong
length. -/
def PrivateKey.Pack (P : CPAPKE) (sk : PrivateKey P) (buf : Bytes) :
    PanicOr Bytes :=
  if buf.length ≠ PrivateKeySize P then .panicked
  else
    match sk.sk, sk.pk with
    | some psk, some p => .ok (P.packSec psk ++ P.packPub p ++ sk.hpk ++ sk.z)
    | _, _ => .panicked

/-- PrivateKey.Unpack of the round-3 variant: panics on a wrong-length
buffer and otherwise reconstructs the key from the fixed layout with no
validation of the embedded hpk. -/
def PrivateKey.UnpackRound3 (P : CPAPKE) (H : Hashes) (buf : Bytes) :
    PanicOr (PrivateKey P) :=
  if buf.length ≠ PrivateKeySize P then .panicked
  else
    let skk := P.unpackSec (buf.take P.privateKeySize)
    let buf1 := buf.drop P.privateKeySize
    let p := P.unpackPub (buf1.take P.publicKeySize)
    let buf2 := buf1.drop P.publicKeySize
    .ok ⟨some skk, some p, buf2.take 32, (buf2.drop 32).take 32⟩

/-- PrivateKey.Unpack of the NIST variant: returns ErrPrivKeySize on a
wrong-length buffer, reconstructs the key from the fixed layout, recomputes
the 256-bit hash of the embedded packed public key, and returns ErrPrivKey
when it differs from the embedded hpk bytes. -/
def PrivateKey.UnpackNIST (P : CPAPKE) (H : Hashes) (buf : Bytes) :
    Except KemError (PrivateKey P) :=
  if buf.length ≠ PrivateKeySize P then .error .ErrPrivKeySize
  else
    let skk := P.unpackSec (buf.take P.privateKeySize)
    let buf1 := buf.drop P.privateKeySize
    let p := P.unpackPub (buf1.take P.publicKeySize)
    let hpk := H.hash256 (buf1.take P.publicKeySize)
    let buf2 := buf1.drop P.publicKeySize
    if hpk ≠ buf2.take 32 then .error .ErrPrivKey
    else .ok ⟨some skk, some p, buf2.take 32, (buf2.drop 32).take 32⟩

/-- PublicKey.Pack writes the packed cpapke public key; panics when buf has
the wrong length. -/
def PublicKey.Pack (P : CPAPKE) (pk : PublicKey P) (buf : Bytes) :
    PanicOr Bytes :=
  if buf.length ≠ PublicKeySize P then .panicked
  else
    match pk.pk with
    | some p => .ok (P.packPub p)
    | none => .panicked

/-- PublicKey.Unpack of the round-3 variant: panics on a wrong-length
buffer, unpacks the cpapke key without validation and caches the 256-bit
hash of the buffer as hpk. -/
def PublicKey.UnpackRound3 (P : CPAPKE) (H : Hashes) (buf : Bytes) :
    PanicOr (PublicKey P) :=
  if buf.length ≠ PublicKeySize P then .panicked
  else .ok ⟨some (P.unpackPub buf), H.hash256 buf⟩

/-- PublicKey.Unpack of the NIST variant: returns ErrPubKeySize on a
wrong-length buffer, propagates the normalization error of the MLKEM unpack
of the cpapke adapter, and caches the 256-bit hash of the buffer as hpk. -/
def PublicKey.UnpackNIST (P : CPAPKE) (H : Hashes) (buf : Bytes) :
    Except KemError (PublicKey P) :=
  if buf.length ≠ PublicKeySize P then .error .ErrPubKeySize
  else
    match P.unpackPubMLKEM buf with
    | .error e => .error e
    | .ok p => .ok ⟨some p, H.hash256 buf⟩

/-- PrivateKey.Equal: true when both cpapke public-key pointers are nil;
false when exactly one is nil; otherwise false unless the hpk bytes agree
and the constant-time comparison of the z fields returns 1, in which case
the result is the Equal of the cpapke private keys. -/
def PrivateKey.Equal (P : CPAPKE) (sk oth : PrivateKey P) : Bool :=
  match sk.pk, oth.pk with
  | none, none => true
  | some _, some _ =>
    if sk.hpk ≠ oth.hpk ∨ constantTimeCompare sk.z oth.z ≠ 1 then false
    else P.eqSec sk.sk oth.sk
  | _, _ => false

/-- PublicKey.Equal: true when both cpapke pointers are nil, false when
exactly one is, and otherwise byte equality of the hpk fields. -/
def PublicKey.Equal (P : CPAPKE) (pk oth : PublicKey P) : Bool :=
  match pk.pk, oth.pk with
  | none, none => true
  | some _, some _ => pk.hpk == oth.hpk
  | _, _ => false

/-- Concrete instantiation of the hash adapter used to evaluate the
development on explicit inputs: each primitive returns a run of bytes
determined by the input length. -/
def testHashes : Hashes where
  hash256 := fun b => List.replicate 32 ((b.length + 1) % 256)
  hash512 := fun b => List.replicate 64 ((b.length + 2) % 256)
  shake256 := fun b n => List.replicate n ((b.length + 3) % 256)
  h256_len := fun b => List.length_replicate 32 ((b.length + 1) % 256)
  h512_len := fun b => List.length_replicate 64 ((b.length + 2) % 256)
  shake_len := fun b n => List.length_replicate n ((b.length + 3) % 256)

/-- Concrete instantiation of the CPA-PKE adapter used to evaluate the
development on explicit inputs: keys carry no data, encryption is the
identity on the 32-byte message, and the MLKEM unpack accepts exactly the
canonical encoding. -/
def testPKE : CPAPKE where
  Pub := Unit
  Sec := Unit
  keySeedSize := 1
  publicKeySize := 1
  privateKeySize := 1
  ciphertextSize := 32
  newKeyFromSeed := fun _ => ((), ())
  newKeyFromSeedMLKEM := fun _ => ((), ())
  packPub := fun _ => [0]
  unpackPub := fun _ => ()
  unpackPubMLKEM := fun b => if b = [0] then .ok () else .error .ErrPubKey
  packSec := fun _ => [0]
  unpackSec := fun _ => ()
  encrypt := fun _ m _ => m
  decrypt := fun _ c => c
  eqSec := fun a b => a.isSome && b.isSome
  packPub_len := fun _ => rfl
  packSec_len := fun _ => rfl
  encrypt_len := fun _ _ _ h => h
  unpackPub_packPub := fun _ => rfl
  unpackSec_packSec := fun _ => rfl
  unpackPubMLKEM_packPub := fun _ => rfl
  mlkem_canon := by
    intro b p hp
    by_cases hb : b = [0]
    · simp [hb]
    · simp [hb] at hp
  eqSec_refl := fun _ => rfl

/-- Buffer exhibiting the failure of the hpk invariant in the pre-standard
PrivateKey.Unpack: its embedded hpk bytes are all zero while the hash of
the embedded public key is not. -/
def c4buf : Bytes := 5 :: 7 :: (List.replicate 32 0 ++ List.replicate 32 2)

/-- Public key used to evaluate the development on explicit inputs; its hpk
is the hash of the packed cpapke key, as NewKeyFromSeed computes it. -/
def wpk : PublicKey testPKE := ⟨some (), List.replicate 32 2⟩

/-- Private key matching wpk, as NewKeyFromSeed derives it from the
all-zero seed. -/
def wsk : PrivateKey testPKE := ⟨some (), some (), List.replicate 32 2,
  List.replicate 32 0⟩

/-- Entropy source holding 33 bytes, one more than an encapsulation seed. -/
def c8ent : Bytes := List.replicate 33 4

/-- All-zero key-generation seed of length KeySeedSize for testPKE. -/
def wseed : Bytes := List.replicate 33 0

/-- All-one encapsulation seed of length 32. -/
def weseed : Bytes := List.replicate 32 1

/-- All-zero 32-byte buffer. -/
def wb32 : Bytes := List.replicate 32 0

/-- All-zero buffer of length PrivateKeySize for testPKE. -/
def wbufS : Bytes := List.replicate 66 0

/-- Valid packed private key for testPKE: its embedded hpk bytes equal the
hash of the embedded packed public key. -/
def c6buf : Bytes := 0 :: 0 :: (List.replicate 32 2 ++ List.replicate 32 3)

/-- Helper: DecapsulateTo on a well-formed private key and buffers of the
required lengths reduces to the decapsulation core. -/
theorem decapsulateTo_ok (v : Variant) (P : CPAPKE) (H : Hashes)
    (psk : P.Sec) (p : P.Pub) (hpkv z ss ct : Bytes)
    (hct : ct.length = CiphertextSize P) (hss : ss.length = SharedKeySize) :
    DecapsulateTo v P H ⟨some psk, some p, hpkv, z⟩ ss ct =
      .ok (decapsulate v P H psk p hpkv z ct) := by
  unfold DecapsulateTo
  rw [if_neg (by simp [hct]), if_neg (by simp [hss])]

/-- Helper: correctness of decapsulation on an honestly encapsulated
ciphertext, for a well-formed key whose cpapke decryption inverts
encryption on 32-byte messages. -/
theorem decap_of_encap (v : Variant) (P : CPAPKE) (H : Hashes) (p : P.Pub)
    (psk : P.Sec) (hpkv z ssb s : Bytes) (hs : s.length = 32)
    (hinv : ∀ m r, m.length = 32 → P.decrypt psk (P.encrypt p m r) = m)
    (hssb : ssb.length = SharedKeySize) :
    DecapsulateTo v P H ⟨some psk, some p, hpkv, z⟩ ssb
        (encapsulate v P H p hpkv s).1 =
      .ok (encapsulate v P H p hpkv s).2 := by
  cases v with
  | nist =>
    have hctlen : (P.encrypt p s ((H.hash512 (s ++ hpkv)).drop 32)).length =
        CiphertextSize P := P.encrypt_len _ _ _ hs
    have hdec := hinv s ((H.hash512 (s ++ hpkv)).drop 32) hs
    simp [DecapsulateTo, decapsulate, encapsulate, hctlen, hssb, hdec,
      constantTimeCompare, constantTimeCopy]
  | round3 =>
    have hm : (H.hash256 s).length = 32 := H.h256_len s
    have hctlen : (P.encrypt p (H.hash256 s)
        ((H.hash512 (H.hash256 s ++ hpkv)).drop 32)).length =
        CiphertextSize P := P.encrypt_len _ _ _ hm
    have hdec := hinv (H.hash256 s)
      ((H.hash512 (H.hash256 s ++ hpkv)).drop 32) hm
    simp [DecapsulateTo, decapsulate, encapsulate, hctlen, hssb, hdec,
      constantTimeCompare, constantTimeCopy, List.take_append_drop]

/-- C1: for every key pair produced by NewKeyFromSeed and every 32-byte
encapsulation seed, if EncapsulateTo succeeds and produces (c, k) then
DecapsulateTo on c returns exactly k, in both variants, assuming the
underlying CPA-PKE decryption inverts encryption for this key pair. -/
theorem c1_encap_decap_roundtrip (v : Variant) (P : CPAPKE) (H : Hashes)
    (seed eseed ct0 ss0 ssb ent c k : Bytes)
    (pk : PublicKey P) (sk : PrivateKey P)
    (hkey : NewKeyFromSeed v P H seed = .ok (pk, sk))
    (hdec : ∀ psk p m r, sk.sk = some psk → sk.pk = some p → m.length = 32 →
      P.decrypt psk (P.encrypt p m r) = m)
    (heseed : eseed.length = EncapsulationSeedSize)
    (hssb : ssb.length = SharedKeySize)
    (henc : EncapsulateTo v P H pk ct0 ss0 (some eseed) ent = (.ok c k, ent)) :
    DecapsulateTo v P H sk ssb c = .ok k := by
  unfold NewKeyFromSeed at hkey
  by_cases hlen : seed.length ≠ KeySeedSize P
  · rw [if_pos hlen] at hkey
    exact absurd hkey (by simp)
  · rw [if_neg hlen] at hkey
    simp only [PanicOr.ok.injEq, Prod.mk.injEq] at hkey
    obtain ⟨hpk_eq, hsk_eq⟩ := hkey
    subst hpk_eq
    subst hsk_eq
    simp only [EncapsulateTo] at henc
    rw [if_neg (by simp [heseed])] at henc
    unfold encapsulateChecked at henc
    by_cases hct0 : ct0.length ≠ CiphertextSize P
    · rw [if_pos hct0] at henc
      exact absurd henc (by simp)
    · rw [if_neg hct0] at henc
      by_cases hss0 : ss0.length ≠ SharedKeySize
      · rw [if_pos hss0] at henc
        exact absurd henc (by simp)
      · rw [if_neg hss0] at henc
        simp only [Prod.mk.injEq, EncOut.ok.injEq] at henc
        obtain ⟨⟨hc, hk⟩, -⟩ := henc
        subst hc
        subst hk
        exact decap_of_encap v P H _ _ _ _ ssb eseed heseed
          (fun m r hm => hdec _ _ m r rfl rfl hm) hssb

/-- C2: DecapsulateTo computes exactly the claimed formula in both
variants: with m2 the decryption of ct, (K2, r2) the 512-bit hash of m2
followed by hpk, and ct2 the re-encryption of m2 under coins r2, the NIST
variant outputs the XOF of z followed by ct unless ct equals ct2
byte-for-byte, in which case it outputs the first SharedKeySize bytes of
(K2, r2); the round-3 variant outputs the XOF of the 64-byte value whose
first half is the first 32 bytes of (K2, r2) on match and z on mismatch and
whose second half is the 256-bit hash of ct. -/
theorem c2_decap_formula (P : CPAPKE) (H : Hashes) (psk : P.Sec) (p : P.Pub)
    (hpkv z ss ct : Bytes) (hct : ct.length = CiphertextSize P)
    (hss : ss.length = SharedKeySize) :
    (DecapsulateTo .nist P H ⟨some psk, some p, hpkv, z⟩ ss ct =
      .ok (if ct = P.encrypt p (P.decrypt psk ct)
              ((H.hash512 (P.decrypt psk ct ++ hpkv)).drop 32)
           then (H.hash512 (P.decrypt psk ct ++ hpkv)).take SharedKeySize
           else H.shake256 (z ++ ct) SharedKeySize)) ∧
    (DecapsulateTo .round3 P H ⟨some psk, some p, hpkv, z⟩ ss ct =
      .ok (H.shake256
        ((if ct = P.encrypt p (P.decrypt psk ct)
              ((H.hash512 (P.decrypt psk ct ++ hpkv)).drop 32)
          then (H.hash512 (P.decrypt psk ct ++ hpkv)).take 32
          else z) ++ H.hash256 ct) SharedKeySize)) := by
  have h64 : (H.hash512 (P.decrypt psk ct ++ hpkv)).length = 64 :=
    H.h512_len _
  have htake : ((H.hash512 (P.decrypt psk ct ++ hpkv)).take 32).length = 32 := by
    simp [h64]
  constructor
  · rw [decapsulateTo_ok _ _ _ _ _ _ _ _ _ hct hss]
    simp only [decapsulate, constantTimeCompare, constantTimeCopy]
    by_cases hc : ct = P.encrypt p (P.decrypt psk ct)
      ((H.hash512 (P.decrypt psk ct ++ hpkv)).drop 32)
    · simp only [if_pos hc]
      simp
    · simp only [if_neg hc]
      simp
  · rw [decapsulateTo_ok _ _ _ _ _ _ _ _ _ hct hss]
    simp only [decapsulate, constantTimeCompare, constantTimeCopy]
    by_cases hc : ct = P.encrypt p (P.decrypt psk ct)
      ((H.hash512 (P.decrypt psk ct ++ hpkv)).drop 32)
    · simp only [if_pos hc]
      simp [List.take_left' htake, List.drop_left' htake]
    · simp only [if_neg hc]
      simp [List.take_left' htake, List.drop_left' htake]

/-- C3: DecapsulateTo is a deterministic function of the private key and the
ciphertext; in particular its output does not depend on the prior contents
of the destination buffer, and the function consumes no randomness. -/
theorem c3_decap_deterministic (v : Variant) (P : CPAPKE) (H : Hashes)
    (sk : PrivateKey P) (ss1 ss2 ct : Bytes)
    (h1 : ss1.length = SharedKeySize) (h2 : ss2.length = SharedKeySize) :
    DecapsulateTo v P H sk ss1 ct = DecapsulateTo v P H sk ss2 ct := by
  unfold DecapsulateTo
  rw [h1, h2]

/-- C5: EncapsulateTo with an explicit 32-byte seed computes the message as
the seed itself (NIST) or its 256-bit hash (round 3), the ciphertext as the
deterministic encryption of the message under the second half of the
512-bit hash of the message followed by hpk, and the shared key as the
first SharedKeySize bytes of that digest (NIST) or the XOF of its first
half followed by the 256-bit hash of the ciphertext (round 3). -/
theorem c5_encap_formula (P : CPAPKE) (H : Hashes) (p : P.Pub)
    (hpkv ct ss seed ent : Bytes) (hseed : seed.length = EncapsulationSeedSize)
    (hct : ct.length = CiphertextSize P) (hss : ss.length = SharedKeySize) :
    (EncapsulateTo .nist P H ⟨some p, hpkv⟩ ct ss (some seed) ent =
      (.ok (P.encrypt p seed ((H.hash512 (seed ++ hpkv)).drop 32))
           ((H.hash512 (seed ++ hpkv)).take SharedKeySize), ent)) ∧
    (EncapsulateTo .round3 P H ⟨some p, hpkv⟩ ct ss (some seed) ent =
      (.ok (P.encrypt p (H.hash256 seed)
              ((H.hash512 (H.hash256 seed ++ hpkv)).drop 32))
           (H.shake256 ((H.hash512 (H.hash256 seed ++ hpkv)).take 32 ++
              H.hash256 (P.encrypt p (H.hash256 seed)
                ((H.hash512 (H.hash256 seed ++ hpkv)).drop 32)))
              SharedKeySize), ent)) := by
  constructor
  · simp [EncapsulateTo, encapsulateChecked, encapsulate, hseed, hct, hss]
  · simp [EncapsulateTo, encapsulateChecked, encapsulate, hseed, hct, hss]

/-- C10: PrivateKey.Equal returns true for any two private keys whose
embedded cpapke public-key references are both nil, regardless of the sk,
hpk and z fields; in particular two zero-value private keys compare
equal. -/
theorem c10_equal_nil_pk (P : CPAPKE) (a b : Option P.Sec)
    (h1 z1 h2 z2 : Bytes) :
    PrivateKey.Equal P ⟨a, none, h1, z1⟩ ⟨b, none, h2, z2⟩ = true := rfl

/-- C4 (amended): hpk equals the 256-bit hash of the packed embedded cpapke
public key for keys built by NewKeyFromSeed and GenerateKeyPair; for
unpacked keys it equals the 256-bit hash of the public-key bytes of the
input buffer, which conincides with the hash of the packed embedded key in
the standardized public-key unpack (whose accepted encodings are
canonical); the pre-standard PrivateKey.Unpack copies hpk from the buffer
without validation, so the invariant can fail there. -/
theorem c4_hpk_invariant_amended (P : CPAPKE) (H : Hashes) :
    (∀ (v : Variant) (seed : Bytes) (pk : PublicKey P) (sk : PrivateKey P),
      NewKeyFromSeed v P H seed = .ok (pk, sk) →
      ∃ p, pk.pk = some p ∧ sk.pk = some p ∧
        pk.hpk = H.hash256 (P.packPub p) ∧ sk.hpk = H.hash256 (P.packPub p)) ∧
    (∀ (v : Variant) (rand : Option Bytes) (dflt : Bytes)
      (pk : PublicKey P) (sk : PrivateKey P),
      GenerateKeyPair v P H rand dflt = .ok pk sk →
      ∃ p, pk.pk = some p ∧ sk.pk = some p ∧
        pk.hpk = H.hash256 (P.packPub p) ∧ sk.hpk = H.hash256 (P.packPub p)) ∧
    (∀ (buf : Bytes) (pk : PublicKey P),
      PublicKey.UnpackRound3 P H buf = .ok pk → pk.hpk = H.hash256 buf) ∧
    (∀ (buf : Bytes) (pk : PublicKey P) (p : P.Pub),
      PublicKey.UnpackNIST P H buf = .ok pk → pk.pk = some p →
      pk.hpk = H.hash256 (P.packPub p)) ∧
    (∀ (buf : Bytes) (sk : PrivateKey P),
      PrivateKey.UnpackNIST P H buf = .ok sk →
      sk.hpk = H.hash256 ((buf.drop P.privateKeySize).take P.publicKeySize)) := by
  have key : ∀ (v : Variant) (seed : Bytes) (pk : PublicKey P)
      (sk : PrivateKey P), NewKeyFromSeed v P H seed = .ok (pk, sk) →
      ∃ p, pk.pk = some p ∧ sk.pk = some p ∧
        pk.hpk = H.hash256 (P.packPub p) ∧
        sk.hpk = H.hash256 (P.packPub p) := by
    intro v seed pk sk h
    unfold NewKeyFromSeed at h
    by_cases hlen : seed.length ≠ KeySeedSize P
    · rw [if_pos hlen] at h
      exact absurd h (by simp)
    · rw [if_neg hlen] at h
      simp only [PanicOr.ok.injEq, Prod.mk.injEq] at h
      obtain ⟨h1, h2⟩ := h
      subst h1
      subst h2
      exact ⟨_, rfl, rfl, rfl, rfl⟩
  refine ⟨key, ?_, ?_, ?_, ?_⟩
  · intro v rand dflt pk sk h
    simp only [GenerateKeyPair] at h
    cases hr : readFull (rand.getD dflt) (KeySeedSize P) with
    | none =>
      rw [hr] at h
      exact absurd h (by simp)
    | some sd =>
      rw [hr] at h
      dsimp only at h
      cases hk : NewKeyFromSeed v P H sd with
      | panicked =>
        rw [hk] at h
        exact absurd h (by simp)
      | ok pr =>
        obtain ⟨pk0, sk0⟩ := pr
        rw [hk] at h
        simp only [GenOut.ok.injEq] at h
        obtain ⟨h1, h2⟩ := h
        subst h1
        subst h2
        exact key v sd _ _ hk
  · intro buf pk h
    unfold PublicKey.UnpackRound3 at h
    by_cases hlen : buf.length ≠ PublicKeySize P
    · rw [if_pos hlen] at h
      exact absurd h (by simp)
    · rw [if_neg hlen] at h
      simp only [PanicOr.ok.injEq] at h
      subst h
      rfl
  · intro buf pk p h hp
    unfold PublicKey.UnpackNIST at h
    by_cases hlen : buf.length ≠ PublicKeySize P
    · rw [if_pos hlen] at h
      exact absurd h (by simp)
    · rw [if_neg hlen] at h
      cases hu : P.unpackPubMLKEM buf with
      | error e =>
        rw [hu] at h
        exact absurd h (by simp)
      | ok p0 =>
        rw [hu] at h
        simp only [Except.ok.injEq] at h
        subst h
        simp only [] at hp
        have hp0 : p0 = p := by simpa using hp
        subst hp0
        rw [P.mlkem_canon buf p0 hu]
  · intro buf sk h
    unfold PrivateKey.UnpackNIST at h
    by_cases hlen : buf.length ≠ PrivateKeySize P
    · rw [if_pos hlen] at h
      exact absurd h (by simp)
    · rw [if_neg hlen] at h
      by_cases hx : H.hash256 ((buf.drop P.privateKeySize).take P.publicKeySize) ≠
          ((buf.drop P.privateKeySize).drop P.publicKeySize).take 32
      · rw [if_pos hx] at h
        exact absurd h (by simp)
      · rw [if_neg hx] at h
        simp only [Except.ok.injEq] at h
        subst h
        simp only []
        push_neg at hx
        exact hx.symm

/-- C4 counterexample: the pre-standard PrivateKey.Unpack accepts a buffer
whose embedded hpk bytes differ from the 256-bit hash of the packed
embedded public key, so the resulting private key violates the claimed
invariant. -/
theorem c4_counterexample :
    PrivateKey.UnpackRound3 testPKE testHashes c4buf =
      .ok ⟨some (), some (), List.replicate 32 0, List.replicate 32 2⟩ ∧
    (⟨some (), some (), List.replicate 32 0, List.replicate 32 2⟩ :
        PrivateKey testPKE).pk = some () ∧
    (⟨some (), some (), List.replicate 32 0, List.replicate 32 2⟩ :
        PrivateKey testPKE).hpk ≠ testHashes.hash256 (testPKE.packPub ()) := by
  refine ⟨rfl, rfl, ?_⟩
  decide

/-- C6: the standardized PrivateKey.Unpack on a PrivateKeySize buffer
returns ErrPrivKey exactly when the recomputed hash of the embedded packed
public key differs from the embedded hpk bytes; wrong-length buffers get
the distinct ErrPrivKeySize; the pre-standard variant accepts every buffer
of the right length without validation. -/
theorem c6_unpack_validation (P : CPAPKE) (H : Hashes) :
    (∀ buf : Bytes, buf.length = PrivateKeySize P →
      (PrivateKey.UnpackNIST P H buf = .error .ErrPrivKey ↔
        H.hash256 ((buf.drop P.privateKeySize).take P.publicKeySize) ≠
          ((buf.drop P.privateKeySize).drop P.publicKeySize).take 32)) ∧
    (∀ buf : Bytes, buf.length ≠ PrivateKeySize P →
      PrivateKey.UnpackNIST P H buf = .error .ErrPrivKeySize) ∧
    KemError.ErrPrivKey ≠ KemError.ErrPrivKeySize ∧
    (∀ buf : Bytes, buf.length = PrivateKeySize P →
      ∃ sk, PrivateKey.UnpackRound3 P H buf = .ok sk) := by
  refine ⟨?_, ?_, by decide, ?_⟩
  · intro buf hb
    unfold PrivateKey.UnpackNIST
    rw [if_neg (by simp [hb])]
    by_cases hx : H.hash256 ((buf.drop P.privateKeySize).take P.publicKeySize) ≠
        ((buf.drop P.privateKeySize).drop P.publicKeySize).take 32
    · rw [if_pos hx]
      simpa using hx
    · rw [if_neg hx]
      exact iff_of_false (by simp) hx
  · intro buf hb
    unfold PrivateKey.UnpackNIST
    rw [if_pos hb]
  · intro buf hb
    refine ⟨⟨some (P.unpackSec (buf.take P.privateKeySize)),
      some (P.unpackPub ((buf.drop P.privateKeySize).take P.publicKeySize)),
      ((buf.drop P.privateKeySize).drop P.publicKeySize).take 32,
      (((buf.drop P.privateKeySize).drop P.publicKeySize).drop 32).take 32⟩, ?_⟩
    unfold PrivateKey.UnpackRound3
    rw [if_neg (by simp [hb])]

/-- Helper: the pre-standard private-key unpack inverts the packed layout
for a 32-byte hpk and a 32-byte z. -/
theorem unpackRound3_of_pack (P : CPAPKE) (H : Hashes) (B : P.Sec)
    (A : P.Pub) (h z : Bytes) (hh : h.length = 32) (hz : z.length = 32) :
    PrivateKey.UnpackRound3 P H (P.packSec B ++ P.packPub A ++ h ++ z) =
      .ok ⟨some B, some A, h, z⟩ := by
  have e1 : P.packSec B ++ P.packPub A ++ h ++ z =
      P.packSec B ++ (P.packPub A ++ (h ++ z)) := by
    simp [List.append_assoc]
  have hlen : (P.packSec B ++ P.packPub A ++ h ++ z).length =
      PrivateKeySize P := by
    simp [PrivateKeySize, P.packSec_len, P.packPub_len, hh, hz]
    omega
  unfold PrivateKey.UnpackRound3
  rw [if_neg (not_not_intro hlen)]
  dsimp only
  rw [e1]
  rw [List.take_left' (P.packSec_len B), List.drop_left' (P.packSec_len B)]
  rw [List.take_left' (P.packPub_len A), List.drop_left' (P.packPub_len A)]
  rw [List.take_left' hh, List.drop_left' hh]
  rw [P.unpackSec_packSec, P.unpackPub_packPub]
  rw [show z.take 32 = z from by rw [← hz]; exact List.take_length z]

/-- Helper: the standardized private-key unpack inverts the packed layout
when the embedded hpk is the hash of the embedded packed public key. -/
theorem unpackNIST_of_pack (P : CPAPKE) (H : Hashes) (B : P.Sec)
    (A : P.Pub) (h z : Bytes) (hh : h.length = 32) (hz : z.length = 32)
    (hmatch : H.hash256 (P.packPub A) = h) :
    PrivateKey.UnpackNIST P H (P.packSec B ++ P.packPub A ++ h ++ z) =
      .ok ⟨some B, some A, h, z⟩ := by
  have e1 : P.packSec B ++ P.packPub A ++ h ++ z =
      P.packSec B ++ (P.packPub A ++ (h ++ z)) := by
    simp [List.append_assoc]
  have hlen : (P.packSec B ++ P.packPub A ++ h ++ z).length =
      PrivateKeySize P := by
    simp [PrivateKeySize, P.packSec_len, P.packPub_len, hh, hz]
    omega
  unfold PrivateKey.UnpackNIST
  rw [if_neg (not_not_intro hlen)]
  dsimp only
  rw [e1]
  rw [List.take_left' (P.packSec_len B), List.drop_left' (P.packSec_len B)]
  rw [List.take_left' (P.packPub_len A), List.drop_left' (P.packPub_len A)]
  rw [List.take_left' hh, List.drop_left' hh]
  rw [if_neg (not_not_intro hmatch)]
  rw [P.unpackSec_packSec, P.unpackPub_packPub]
  rw [show z.take 32 = z from by rw [← hz]; exact List.take_length z]

/-- C7: packing and unpacking is the identity on both key types for every
key pair derived from a valid seed, the unpacked keys are equal to the
originals per the Equal methods, and encapsulating to the unpacked public
key gives the same outputs as encapsulating to the original. -/
theorem c7_pack_unpack_roundtrip (v : Variant) (P : CPAPKE) (H : Hashes)
    (seed : Bytes) (pk : PublicKey P) (sk : PrivateKey P)
    (hkey : NewKeyFromSeed v P H seed = .ok (pk, sk))
    (bufS bufP : Bytes) (hbs : bufS.length = PrivateKeySize P)
    (hbp : bufP.length = PublicKeySize P) :
    ∃ (encS encP : Bytes) (sk2 : PrivateKey P) (pk2 : PublicKey P),
      PrivateKey.Pack P sk bufS = .ok encS ∧
      PublicKey.Pack P pk bufP = .ok encP ∧
      ((v = Variant.nist →
        PrivateKey.UnpackNIST P H encS = .ok sk2 ∧
        PublicKey.UnpackNIST P H encP = .ok pk2) ∧
       (v = Variant.round3 →
        PrivateKey.UnpackRound3 P H encS = .ok sk2 ∧
        PublicKey.UnpackRound3 P H encP = .ok pk2)) ∧
      sk2 = sk ∧ pk2 = pk ∧
      PrivateKey.Equal P sk2 sk = true ∧
      PublicKey.Equal P pk2 pk = true ∧
      (∀ ct ss sd ent, EncapsulateTo v P H pk2 ct ss sd ent =
        EncapsulateTo v P H pk ct ss sd ent) := by
  unfold NewKeyFromSeed at hkey
  by_cases hlen : seed.length ≠ KeySeedSize P
  · rw [if_pos hlen] at hkey
    exact absurd hkey (by simp)
  · rw [if_neg hlen] at hkey
    push_neg at hlen
    simp only [PanicOr.ok.injEq, Prod.mk.injEq] at hkey
    obtain ⟨hpk_eq, hsk_eq⟩ := hkey
    subst hpk_eq
    subst hsk_eq
    have hz : ((seed.drop P.keySeedSize).take 32).length = 32 := by
      simp [hlen, KeySeedSize]
    generalize hAB : (match v with
      | Variant.nist => P.newKeyFromSeedMLKEM (seed.take P.keySeedSize)
      | Variant.round3 => P.newKeyFromSeed (seed.take P.keySeedSize)) = AB
    obtain ⟨A, B⟩ := AB
    refine ⟨P.packSec B ++ P.packPub A ++ H.hash256 (P.packPub A) ++
        (seed.drop P.keySeedSize).take 32,
      P.packPub A,
      ⟨some B, some A, H.hash256 (P.packPub A),
        (seed.drop P.keySeedSize).take 32⟩,
      ⟨some A, H.hash256 (P.packPub A)⟩,
      ?_, ?_, ?_, rfl, rfl, ?_, ?_, fun _ _ _ _ => rfl⟩
    · unfold PrivateKey.Pack
      rw [if_neg (not_not_intro hbs)]
    · unfold PublicKey.Pack
      rw [if_neg (not_not_intro hbp)]
    · constructor
      · rintro rfl
        refine ⟨unpackNIST_of_pack P H B A _ _ (H.h256_len _) hz rfl, ?_⟩
        unfold PublicKey.UnpackNIST
        rw [if_neg (not_not_intro (show (P.packPub A).length = PublicKeySize P
          from P.packPub_len A))]
        rw [P.unpackPubMLKEM_packPub]
      · rintro rfl
        refine ⟨unpackRound3_of_pack P H B A _ _ (H.h256_len _) hz, ?_⟩
        unfold PublicKey.UnpackRound3
        rw [if_neg (not_not_intro (show (P.packPub A).length = PublicKeySize P
          from P.packPub_len A))]
        rw [P.unpackPub_packPub]
    · simp [PrivateKey.Equal, constantTimeCompare, P.eqSec_refl]
    · simp [PublicKey.Equal]

/-- C8 (amended): with an explicit seed, EncapsulateTo rejects wrong-length
ct or ss buffers with no output written and no entropy consumed; with a nil
seed the 32-byte encapsulation seed is drawn from the entropy source before
the length checks run, so a failing call has already consumed 32 bytes of
entropy; DecapsulateTo rejects wrong-length ct or ss buffers with no output
written. -/
theorem c8_length_checks_amended (v : Variant) (P : CPAPKE) (H : Hashes) :
    (∀ (pk : PublicKey P) (ct ss s ent : Bytes),
      ct.length ≠ CiphertextSize P ∨ ss.length ≠ SharedKeySize →
      EncapsulateTo v P H pk ct ss (some s) ent = (.panicked, ent)) ∧
    (∀ (pk : PublicKey P) (ct ss ent : Bytes),
      EncapsulationSeedSize ≤ ent.length →
      ct.length ≠ CiphertextSize P ∨ ss.length ≠ SharedKeySize →
      EncapsulateTo v P H pk ct ss none ent =
        (.panicked, ent.drop EncapsulationSeedSize)) ∧
    (∀ (sk : PrivateKey P) (ss ct : Bytes),
      ct.length ≠ CiphertextSize P ∨ ss.length ≠ SharedKeySize →
      DecapsulateTo v P H sk ss ct = .panicked) := by
  refine ⟨?_, ?_, ?_⟩
  · intro pk ct ss s ent hbad
    simp only [EncapsulateTo]
    by_cases hs : s.length ≠ EncapsulationSeedSize
    · rw [if_pos hs]
    · rw [if_neg hs]
      unfold encapsulateChecked
      rcases hbad with h | h
      · rw [if_pos h]
      · by_cases hcl : ct.length ≠ CiphertextSize P
        · rw [if_pos hcl]
        · rw [if_neg hcl, if_pos h]
  · intro pk ct ss ent hent hbad
    simp only [EncapsulateTo]
    rw [if_pos hent]
    unfold encapsulateChecked
    rcases hbad with h | h
    · rw [if_pos h]
    · by_cases hcl : ct.length ≠ CiphertextSize P
      · rw [if_pos hcl]
      · rw [if_neg hcl, if_pos h]
  · intro sk ss ct hbad
    unfold DecapsulateTo
    rcases hbad with h | h
    · rw [if_pos h]
    · by_cases hcl : ct.length ≠ CiphertextSize P
      · rw [if_pos hcl]
      · rw [if_neg hcl, if_pos h]

/-- C8 counterexample: EncapsulateTo with a nil seed and a wrong-length
ciphertext buffer consumes 32 bytes of entropy before failing, so the
failure does not precede all randomness consumption. -/
theorem c8_counterexample :
    EncapsulateTo .nist testPKE testHashes wpk [] (List.replicate 32 0)
        none c8ent = (.panicked, c8ent.drop 32) ∧
    c8ent.drop 32 ≠ c8ent := by
  exact ⟨rfl, by decide⟩

/-- C9 (amended): GenerateKeyPair with nil rand propagates an entropy-source
failure as a returned error value (never a panic and never a fallback);
EncapsulateTo with a nil seed panics with the entropy-source error rather
than returning an error value, and also never substitutes a fallback. -/
theorem c9_entropy_failure_amended (v : Variant) (P : CPAPKE) (H : Hashes) :
    (∀ dflt : Bytes, dflt.length < KeySeedSize P →
      GenerateKeyPair v P H none dflt = .err) ∧
    (∀ (pk : PublicKey P) (ct ss ent : Bytes),
      ent.length < EncapsulationSeedSize →
      EncapsulateTo v P H pk ct ss none ent = (.panicked, ent)) := by
  constructor
  · intro dflt h
    simp only [GenerateKeyPair, readFull, Option.getD]
    rw [if_neg (not_le.mpr h)]
  · intro pk ct ss ent h
    simp only [EncapsulateTo]
    rw [if_neg (not_le.mpr h)]

/-- C9 counterexample: EncapsulateTo with a nil seed and an empty (failing)
entropy source panics; the Go function has no error return, so the failure
is not surfaced as a recoverable error value. -/
theorem c9_counterexample :
    EncapsulateTo .nist testPKE testHashes wpk (List.replicate 32 0)
      (List.replicate 32 0) none [] = (.panicked, []) := rfl

/-- Witness for C1: concrete round-3 key pair, encapsulation and matching
decapsulation over the test primitives. -/
theorem c1_witness :
    NewKeyFromSeed .round3 testPKE testHashes wseed = .ok (wpk, wsk) ∧
    weseed.length = EncapsulationSeedSize ∧
    wb32.length = SharedKeySize ∧
    EncapsulateTo .round3 testPKE testHashes wpk wb32 wb32 (some weseed) [] =
      (.ok (List.replicate 32 33) (List.replicate 32 67), []) ∧
    DecapsulateTo .round3 testPKE testHashes wsk wb32 (List.replicate 32 33) =
      .ok (List.replicate 32 67) :=
  ⟨rfl, rfl, rfl, rfl,
    c1_encap_decap_roundtrip .round3 testPKE testHashes wseed weseed wb32 wb32
      wb32 [] (List.replicate 32 33) (List.replicate 32 67) wpk wsk rfl
      (fun _ _ _ _ _ _ _ => rfl) rfl rfl rfl⟩

/-- Witness for C2: the NIST decapsulation formula evaluated on a concrete
private key and ciphertext over the test primitives. -/
theorem c2_witness :
    (List.replicate 32 9 : Bytes).length = CiphertextSize testPKE ∧
    wb32.length = SharedKeySize ∧
    DecapsulateTo .nist testPKE testHashes
        ⟨some (), some (), List.replicate 32 2, List.replicate 32 5⟩ wb32
        (List.replicate 32 9) = .ok (List.replicate 32 66) :=
  ⟨rfl, rfl,
    (c2_decap_formula testPKE testHashes () () (List.replicate 32 2)
      (List.replicate 32 5) wb32 (List.replicate 32 9) rfl rfl).1⟩

/-- Witness for C3: two decapsulations of the same ciphertext into buffers
with different prior contents agree. -/
theorem c3_witness :
    wb32.length = SharedKeySize ∧
    (List.replicate 32 7 : Bytes).length = SharedKeySize ∧
    DecapsulateTo .round3 testPKE testHashes wsk wb32 (List.replicate 32 9) =
      DecapsulateTo .round3 testPKE testHashes wsk (List.replicate 32 7)
        (List.replicate 32 9) :=
  ⟨rfl, rfl,
    c3_decap_deterministic .round3 testPKE testHashes wsk wb32
      (List.replicate 32 7) (List.replicate 32 9) rfl rfl⟩

/-- Witness for C4 (amended): the NewKeyFromSeed conjunct evaluated on a
concrete seed over the test primitives. -/
theorem c4_witness :
    NewKeyFromSeed .round3 testPKE testHashes wseed = .ok (wpk, wsk) ∧
    ∃ p, wpk.pk = some p ∧ wsk.pk = some p ∧
      wpk.hpk = testHashes.hash256 (testPKE.packPub p) ∧
      wsk.hpk = testHashes.hash256 (testPKE.packPub p) :=
  ⟨rfl,
    (c4_hpk_invariant_amended testPKE testHashes).1 .round3 wseed wpk wsk rfl⟩

/-- Witness for C5: both encapsulation formulas evaluated on a concrete
seed and public key over the test primitives. -/
theorem c5_witness :
    weseed.length = EncapsulationSeedSize ∧
    wb32.length = CiphertextSize testPKE ∧
    wb32.length = SharedKeySize ∧
    (EncapsulateTo .nist testPKE testHashes wpk wb32 wb32 (some weseed) [] =
      (.ok (List.replicate 32 1) (List.replicate 32 66), []) ∧
     EncapsulateTo .round3 testPKE testHashes wpk wb32 wb32 (some weseed) [] =
      (.ok (List.replicate 32 33) (List.replicate 32 67), [])) :=
  ⟨rfl, rfl, rfl,
    c5_encap_formula testPKE testHashes () (List.replicate 32 2) wb32 wb32
      weseed [] rfl rfl rfl⟩

/-- Witness for C6: the validation equivalence evaluated on a well-formed
packed private key over the test primitives. -/
theorem c6_witness :
    c6buf.length = PrivateKeySize testPKE ∧
    (PrivateKey.UnpackNIST testPKE testHashes c6buf = .error .ErrPrivKey ↔
      testHashes.hash256
          ((c6buf.drop testPKE.privateKeySize).take testPKE.publicKeySize) ≠
        ((c6buf.drop testPKE.privateKeySize).drop
          testPKE.publicKeySize).take 32) :=
  ⟨rfl, (c6_unpack_validation testPKE testHashes).1 c6buf rfl⟩

/-- Witness for C7: the pack-then-unpack round trip evaluated on a concrete
round-3 key pair over the test primitives. -/
theorem c7_witness :
    NewKeyFromSeed .round3 testPKE testHashes wseed = .ok (wpk, wsk) ∧
    wbufS.length = PrivateKeySize testPKE ∧
    ([9] : Bytes).length = PublicKeySize testPKE ∧
    (∃ (encS encP : Bytes) (sk2 : PrivateKey testPKE)
      (pk2 : PublicKey testPKE),
      PrivateKey.Pack testPKE wsk wbufS = .ok encS ∧
      PublicKey.Pack testPKE wpk [9] = .ok encP ∧
      ((Variant.round3 = Variant.nist →
        PrivateKey.UnpackNIST testPKE testHashes encS = .ok sk2 ∧
        PublicKey.UnpackNIST testPKE testHashes encP = .ok pk2) ∧
       (Variant.round3 = Variant.round3 →
        PrivateKey.UnpackRound3 testPKE testHashes encS = .ok sk2 ∧
        PublicKey.UnpackRound3 testPKE testHashes encP = .ok pk2)) ∧
      sk2 = wsk ∧ pk2 = wpk ∧
      PrivateKey.Equal testPKE sk2 wsk = true ∧
      PublicKey.Equal testPKE pk2 wpk = true ∧
      (∀ ct ss sd ent,
        EncapsulateTo .round3 testPKE testHashes pk2 ct ss sd ent =
          EncapsulateTo .round3 testPKE testHashes wpk ct ss sd ent)) :=
  ⟨rfl, rfl, rfl,
    c7_pack_unpack_roundtrip .round3 testPKE testHashes wseed wpk wsk rfl
      wbufS [9] rfl rfl⟩

/-- Witness for C8 (amended): with an explicit seed and a wrong-length
ciphertext buffer, the call fails with no output and no entropy use. -/
theorem c8_witness :
    (([] : Bytes).length ≠ CiphertextSize testPKE ∨
      wb32.length ≠ SharedKeySize) ∧
    EncapsulateTo .nist testPKE testHashes wpk [] wb32 (some weseed) [] =
      (.panicked, []) :=
  ⟨Or.inl (by decide),
    (c8_length_checks_amended .nist testPKE testHashes).1 wpk [] wb32
      weseed [] (Or.inl (by decide))⟩

/-- Witness for C9 (amended): GenerateKeyPair over an empty default entropy
source returns the error outcome. -/
theorem c9_witness :
    ([] : Bytes).length < KeySeedSize testPKE ∧
    GenerateKeyPair .nist testPKE testHashes none [] = .err :=
  ⟨by decide,
    (c9_entropy_failure_amended .nist testPKE testHashes).1 [] (by decide)⟩

end Kyber
